import Mathlib

/-!
Verification of the Aetheric Engine message framing code.

Bytes are modelled as natural numbers (values 0–255).  A Node.js `Buffer` is a
`List Nat`.  JavaScript functions that throw are modelled as `Option`-returning
functions (`none` = throw).  `Buffer.toString("ascii")` masks each byte to
7 bits (`b % 128`), which the embedding reproduces.  Calls to `console.warn`
are counted and returned as an extra `Nat` so that error-reporting claims can
be stated.
-/

set_option autoImplicit false

/-- Index of the first occurrence of `c` in `l`, mirroring JS `String.indexOf`
(`none` plays the role of `-1`). -/
def idxOfAux (l : List Nat) (c : Nat) : Option Nat :=
  match l with
  | [] => none
  | x :: xs => if x = c then some 0 else (idxOfAux xs c).map (· + 1)

/-- JS `str.indexOf(c, start)`: first occurrence of `c` at position `≥ start`. -/
def idxOfFrom (l : List Nat) (c : Nat) (start : Nat) : Option Nat :=
  (idxOfAux (l.drop start) c).map (· + start)

/-- Boolean test that `pat` is a leading segment of `l`. -/
def isPrefixList : List Nat → List Nat → Bool
  | [], _ => true
  | _ :: _, [] => false
  | a :: as, b :: bs => a = b && isPrefixList as bs

/-- Index of the first occurrence of the contiguous byte sequence `pat` in `l`,
mirroring Node `Buffer.indexOf(pattern)`. -/
def subIndexOf (l pat : List Nat) : Option Nat :=
  match l with
  | [] => if pat = [] then some 0 else none
  | _ :: xs => if isPrefixList pat l then some 0 else (subIndexOf xs pat).map (· + 1)

/-- JS `str.replace(pat, "")`: remove the first occurrence of `pat`. -/
def removeFirstSub (l pat : List Nat) : List Nat :=
  match subIndexOf l pat with
  | some i => l.take i ++ l.drop (i + pat.length)
  | none => l

/-- Character validity test from `processAsciiMessage` (src/utils.js:31):
printable ASCII 0x20–0x7E excluding 0x24 `$` and 0x3B `;`. -/
def isValidAsciiChar (c : Nat) : Bool :=
  decide (32 ≤ c) && decide (c ≤ 126) && !(c == 36) && !(c == 59)

/-- Embedding of `processAsciiMessage` (src/utils.js:8-44).  The argument is
the already-decoded ASCII string (a list of 7-bit codes); `none` models a
thrown error.  On success the extracted payload (everything between `$` and
`;`) is returned. -/
def processAsciiMessage (s : List Nat) : Option (List Nat) :=
  if s.isEmpty then none
  else if s.head? = some 36 ∧ s.getLast? = some 59 then
    if s.length < 7 then none
    else
      let payload := (s.drop 1).dropLast
      if payload.all isValidAsciiChar then some payload else none
  else none

/-- Result record of `processBinaryMessage` (src/utils.js:88-96). -/
structure BinMsg where
  header : Nat
  size : Nat
  payload : List Nat
  totalLength : Nat
deriving Repr, DecidableEq

/-- Little-endian read of the 5-byte payload-size field at offset 1
(src/utils.js:72-76): `payloadSize += sizeBytes[i] * 256^i`. -/
def readSizeLE (b : List Nat) : Nat :=
  (List.range 5).foldl (fun acc i => acc + b.getD (1 + i) 0 * 256 ^ i) 0

/-- Embedding of `processBinaryMessage` (src/utils.js:53-97); `none` models a
thrown error (not-a-buffer, short header, bad tag, or insufficient payload). -/
def processBinaryMessage (b : List Nat) : Option BinMsg :=
  if b.length < 6 then none
  else
    match b.head? with
    | none => none
    | some h =>
      if h ≠ 0xAA ∧ h ≠ 0xBB then none
      else
        let payloadSize := readSizeLE b
        if b.length < 6 + payloadSize then none
        else some ⟨h, payloadSize, (b.drop 6).take payloadSize, 6 + payloadSize⟩

/-- Record emitted by the parser: the `type: "ascii"` and `type: "binary"`
objects of src/utils.js (metadata fields that are derived from these are
omitted). -/
inductive Message where
  | ascii (payload : List Nat) : Message
  | binary (header : Nat) (size : Nat) (payload : List Nat) : Message
deriving Repr, DecidableEq

/-- Outcome of the ASCII-scanning part of one `parseMessages` loop iteration
(src/utils.js:142-193). -/
inductive ScanResult where
  | extracted (payload : List Nat) (buf : List Nat) : ScanResult
  | warnBreak : ScanResult
  | wait : ScanResult
  | noise : ScanResult
deriving Repr, DecidableEq

/-- ASCII part of one iteration of the `parseMessages` loop
(src/utils.js:142-193).  `bufferStr = buffer.toString("ascii")` masks each
byte to 7 bits.  The four outcomes are: a message was parsed and removed
(`extracted` carries the payload and the new buffer); the candidate between
`$` and `;` failed validation (`console.warn`, then the loop breaks because
`startIndex !== -1`); a break waiting for more data (`$` with no `;`, or no
`$` with a tag byte at the head); or no recognizable lead byte (`noise`: the
loop drops one byte). -/
def asciiScan (buf : List Nat) : ScanResult :=
  let masked := buf.map (· % 128)
  match idxOfFrom masked 36 0 with
  | some s =>
    match idxOfFrom masked 59 s with
    | some e =>
      if s < e then
        let am := (masked.drop s).take (e + 1 - s)
        match processAsciiMessage am with
        | some payload =>
          let newBuf :=
            match subIndexOf buf am with
            | some i => buf.take i ++ buf.drop (i + am.length)
            | none => removeFirstSub masked am
          ScanResult.extracted payload newBuf
        | none => ScanResult.warnBreak
      else ScanResult.wait
    | none => ScanResult.wait
  | none =>
    if buf.head? = some 0xAA ∨ buf.head? = some 0xBB then ScanResult.wait
    else ScanResult.noise

/-- The `while` loop of `MessageParser.parseMessages` (src/utils.js:113-197),
with an explicit fuel argument; every non-breaking iteration strictly shrinks
the buffer, so `fuel = buffer.length + 1` always suffices.  Returns the
messages in emission order, the number of `console.warn` calls, and the final
buffer.  In the binary branch the source additionally guards
`buffer.length >= result.totalLength`; the guard always holds because
`processBinaryMessage` throws exactly when `buffer.length < 6 + payloadSize`. -/
def parseLoop : Nat → List Nat → List Message → Nat → List Message × Nat × List Nat
  | 0, buf, acc, warns => (acc.reverse, warns, buf)
  | fuel + 1, buf, acc, warns =>
    if buf.isEmpty then (acc.reverse, warns, buf)
    else if 6 ≤ buf.length ∧ (buf.head? = some 0xAA ∨ buf.head? = some 0xBB) then
      match processBinaryMessage buf with
      | some r =>
        parseLoop fuel (buf.drop r.totalLength)
          (Message.binary r.header r.size r.payload :: acc) warns
      | none => parseLoop fuel (buf.drop 1) acc (warns + 1)
    else
      match asciiScan buf with
      | ScanResult.extracted p newBuf => parseLoop fuel newBuf (Message.ascii p :: acc) warns
      | ScanResult.warnBreak => (acc.reverse, warns + 1, buf)
      | ScanResult.wait => (acc.reverse, warns, buf)
      | ScanResult.noise => parseLoop fuel (buf.drop 1) acc warns

/-- State of the `MessageParser` class (src/utils.js:103-211). -/
structure MessageParser where
  buffer : List Nat
  messageCount : Nat
deriving Repr, DecidableEq

/-- The freshly constructed parser (src/utils.js:104-107). -/
def MessageParser.empty : MessageParser := ⟨[], 0⟩

/-- `addData` (src/utils.js:109-111): `buffer = Buffer.concat([buffer, data])`. -/
def MessageParser.addData (p : MessageParser) (data : List Nat) : MessageParser :=
  { p with buffer := p.buffer ++ data }

/-- `parseMessages` (src/utils.js:113-197): returns the emitted messages, the
number of `console.warn` calls, and the mutated parser. -/
def MessageParser.parseMessages (p : MessageParser) : List Message × Nat × MessageParser :=
  let out := parseLoop (p.buffer.length + 1) p.buffer [] 0
  (out.1, out.2.1, ⟨out.2.2, p.messageCount + out.1.length⟩)

/-- Big-endian read used by `parseBinary` (src/server.js:42):
`buffer.readUIntBE(offset, len)`. -/
def readUIntBE (b : List Nat) (offset len : Nat) : Nat :=
  (List.range len).foldl (fun acc i => acc * 256 + b.getD (offset + i) 0) 0

/-- Embedding of `parseBinary` (src/server.js:39-48): accepts only tag `0xAA`,
reads a 5-byte big-endian size at offset 1, returns the payload when complete
and `null` (= `none`) otherwise. -/
def parseBinary (b : List Nat) : Option (List Nat) :=
  if b.getD 0 0 = 0xAA ∧ 6 ≤ b.length then
    let size := readUIntBE b 1 5
    if 6 + size ≤ b.length then some ((b.drop 6).take size) else none
  else none

/-- Collection threshold of `AethericEngineClient` (src/server.js:160,
`this.targetMessageCount = 1000`); the earlier stand-alone client stops at
600 (src/server.js:90).  Theorems below are stated for an arbitrary positive
threshold, covering both. -/
def targetMessageCount : Nat := 1000

/-- State of `AethericEngineClient` relevant to the collection lifecycle
(src/server.js:153-171): the embedded `MessageParser`, the `collecting` flag,
`stats.totalMessages`, and how many times the `STATUS` command has been
written to the TCP socket. -/
structure ClientState where
  parser : MessageParser
  collecting : Bool
  totalMessages : Nat
  statusWrites : Nat
deriving Repr, DecidableEq

/-- Embedding of `handleTcpData` (src/server.js:330-353): add the chunk to the
parser, parse, count every emitted message (`processMessage` increments
`stats.totalMessages` once per stored message), then, if still collecting and
the threshold is reached, clear `collecting` and write `STATUS` once. -/
def handleTcpData (target : Nat) (s : ClientState) (data : List Nat) : ClientState :=
  if s.collecting ∧ target ≤ s.totalMessages + ((s.parser.addData data).parseMessages.1).length then
    ⟨((s.parser.addData data).parseMessages.2.2), false,
      s.totalMessages + ((s.parser.addData data).parseMessages.1).length,
      s.statusWrites + 1⟩
  else
    ⟨((s.parser.addData data).parseMessages.2.2), s.collecting,
      s.totalMessages + ((s.parser.addData data).parseMessages.1).length,
      s.statusWrites⟩

/-- State right after `startTcpConnection` connects (src/server.js:272-292):
fresh parser, `collecting = true`, counters zeroed, no `STATUS` written yet. -/
def startState : ClientState := ⟨MessageParser.empty, true, 0, 0⟩

/-- A run of the session controller: the TCP `data` events arrive serially and
each is handled by `handleTcpData`. -/
def runClient (target : Nat) (s : ClientState) (chunks : List (List Nat)) : ClientState :=
  chunks.foldl (handleTcpData target) s

/-- Outbound side of the TCP socket as seen by `stopTcpConnection`
(src/server.js:411-431): `writableLength` is the number of unsent bytes
queued in the write buffer, `drainEndPending` records a registered
`once("drain", () => end())` handler, `ended` records that `end()` was
called. -/
structure TcpState where
  writableLength : Nat
  drainEndPending : Bool
  ended : Bool
deriving Repr, DecidableEq

/-- Events affecting the outbound socket state: a stop request
(`stopTcpConnection`), the socket's `drain` event (which fires exactly when
the write buffer has fully flushed), and a write enqueuing `n` bytes. -/
inductive TcpEvent where
  | stopRequest : TcpEvent
  | drain : TcpEvent
  | enqueue (n : Nat) : TcpEvent
deriving Repr, DecidableEq

/-- Embedding of `stopTcpConnection` (src/server.js:411-431): if unsent bytes
remain (`writableLength > 0`), only register a `drain` handler that will call
`end()`; otherwise call `end()` immediately. -/
def stopTcpConnection (s : TcpState) : TcpState :=
  if 0 < s.writableLength then { s with drainEndPending := true }
  else { s with ended := true }

/-- One step of the socket's event loop.  On `drain` the write buffer is empty
by definition of the event; a pending stop handler then calls `end()`. -/
def tcpStep (s : TcpState) : TcpEvent → TcpState
  | TcpEvent.stopRequest => stopTcpConnection s
  | TcpEvent.drain =>
    if s.drainEndPending then ⟨0, false, true⟩
    else ⟨0, s.drainEndPending, s.ended⟩
  | TcpEvent.enqueue n => { s with writableLength := s.writableLength + n }

/-- Bytes the `parseMessages` loop treats as pure noise: not a binary tag, and
not reading as the `$` start delimiter under the 7-bit `toString("ascii")`
decoding (so neither 0x24 nor 0xA4). -/
def isNoiseByte (b : Nat) : Bool :=
  !(b % 128 == 36) && !(b == 0xAA) && !(b == 0xBB)

/-!
Helper lemmas.
-/

theorem mapMod_eq_self (l : List Nat) (h : ∀ c ∈ l, c < 128) :
    l.map (· % 128) = l := by
  induction l with
  | nil => rfl
  | cons a t ih =>
    simp only [List.map_cons]
    rw [Nat.mod_eq_of_lt (h a (by simp)), ih (fun c hc => h c (by simp [hc]))]

theorem idxOfAux_eq_none (l : List Nat) (c : Nat) (h : ∀ x ∈ l, x ≠ c) :
    idxOfAux l c = none := by
  induction l with
  | nil => rfl
  | cons a t ih =>
    unfold idxOfAux
    rw [if_neg (h a (by simp)), ih (fun x hx => h x (by simp [hx]))]
    rfl

theorem idxOfAux_append_found (l1 l2 : List Nat) (c : Nat) (h : ∀ x ∈ l1, x ≠ c) :
    idxOfAux (l1 ++ c :: l2) c = some l1.length := by
  induction l1 with
  | nil => simp [idxOfAux]
  | cons a t ih =>
    rw [List.cons_append]
    unfold idxOfAux
    rw [if_neg (h a (by simp)), ih (fun x hx => h x (by simp [hx]))]
    simp

theorem isPrefixList_self (l : List Nat) : isPrefixList l l = true := by
  induction l with
  | nil => rfl
  | cons a t ih => simp [isPrefixList, ih]

theorem subIndexOf_eq_length (l1 : List Nat) (c : Nat) (r : List Nat)
    (h : ∀ x ∈ l1, x ≠ c) :
    subIndexOf (l1 ++ c :: r) (c :: r) = some l1.length := by
  induction l1 with
  | nil =>
    show subIndexOf (c :: r) (c :: r) = some 0
    unfold subIndexOf
    rw [if_pos (isPrefixList_self (c :: r))]
  | cons a t ih =>
    rw [List.cons_append]
    unfold subIndexOf
    have hpre : isPrefixList (c :: r) (a :: (t ++ c :: r)) = false := by
      have hac : c ≠ a := fun hca => (h a (by simp)) hca.symm
      simp [isPrefixList, hac]
    rw [hpre]
    simp only [Bool.false_eq_true, if_false]
    rw [ih (fun x hx => h x (by simp [hx]))]
    simp

theorem validChar_facts (c : Nat) (h : isValidAsciiChar c = true) :
    c < 128 ∧ c ≠ 36 ∧ c ≠ 59 ∧ c ≠ 0xAA ∧ c ≠ 0xBB := by
  unfold isValidAsciiChar at h
  simp only [Bool.and_eq_true, decide_eq_true_eq, Bool.not_eq_true',
    beq_eq_false_iff_ne, ne_eq] at h
  refine ⟨by omega, h.1.2, h.2, by omega, by omega⟩

theorem noiseByte_facts (b : Nat) (h : isNoiseByte b = true) :
    b % 128 ≠ 36 ∧ b ≠ 0xAA ∧ b ≠ 0xBB ∧ b ≠ 36 := by
  unfold isNoiseByte at h
  simp only [Bool.and_eq_true, Bool.not_eq_true', beq_eq_false_iff_ne, ne_eq] at h
  refine ⟨h.1.1, h.1.2, h.2, ?_⟩
  intro hb
  exact h.1.1 (by rw [hb])

theorem processAsciiMessage_none_short (s : List Nat) (h : s.length < 7) :
    processAsciiMessage s = none := by
  unfold processAsciiMessage
  by_cases h1 : s.isEmpty
  · rw [if_pos h1]
  · rw [if_neg h1]
    by_cases h2 : s.head? = some 36 ∧ s.getLast? = some 59
    · rw [if_pos h2, if_pos h]
    · rw [if_neg h2]

theorem asciiScan_noise (b : Nat) (t : List Nat)
    (h36 : ∀ x ∈ b :: t, x % 128 ≠ 36)
    (hbA : b ≠ 0xAA) (hbB : b ≠ 0xBB) :
    asciiScan (b :: t) = ScanResult.noise := by
  have hidx : idxOfFrom ((b :: t).map (· % 128)) 36 0 = none := by
    unfold idxOfFrom
    rw [List.drop_zero, idxOfAux_eq_none]
    · rfl
    · intro x hx
      rcases List.mem_map.mp hx with ⟨y, hy, rfl⟩
      exact h36 y hy
  simp only [asciiScan]
  rw [hidx]
  simp [hbA, hbB]

theorem parseLoop_noise (g : List Nat) (hg : ∀ b ∈ g, isNoiseByte b = true) :
    ∀ (fuel : Nat) (acc : List Message) (warns : Nat), g.length < fuel →
      parseLoop fuel g acc warns = (acc.reverse, warns, ([] : List Nat)) := by
  induction g with
  | nil =>
    intro fuel acc warns hf
    obtain ⟨f, rfl⟩ : ∃ f, fuel = f + 1 := ⟨fuel - 1, by omega⟩
    simp [parseLoop]
  | cons b t ih =>
    intro fuel acc warns hf
    obtain ⟨f, rfl⟩ : ∃ f, fuel = f + 1 := ⟨fuel - 1, by omega⟩
    obtain ⟨hmod, hA, hB, h36⟩ := noiseByte_facts b (hg b (by simp))
    have hscan : asciiScan (b :: t) = ScanResult.noise := by
      apply asciiScan_noise
      · intro x hx
        exact (noiseByte_facts x (hg x hx)).1
      · exact hA
      · exact hB
    have hbin : ¬ (6 ≤ (b :: t).length ∧
        ((b :: t).head? = some 0xAA ∨ (b :: t).head? = some 0xBB)) := by
      rintro ⟨-, hh | hh⟩
      · exact hA (by simpa using hh)
      · exact hB (by simpa using hh)
    show parseLoop (f + 1) (b :: t) acc warns = (acc.reverse, warns, [])
    unfold parseLoop
    rw [if_neg (by simp), if_neg hbin, hscan]
    show parseLoop f ((b :: t).drop 1) acc warns = (acc.reverse, warns, [])
    have ht : (b :: t).drop 1 = t := rfl
    rw [ht]
    exact ih (fun x hx => hg x (by simp [hx])) f acc warns (by simp at hf; omega)


theorem idxOfAux_cons (x : Nat) (xs : List Nat) (c : Nat) :
    idxOfAux (x :: xs) c = if x = c then some 0 else (idxOfAux xs c).map (· + 1) := rfl

theorem asciiScan_garbage_text (g p : List Nat)
    (hg : ∀ b ∈ g, isNoiseByte b = true)
    (h5 : 5 ≤ p.length)
    (hv : ∀ c ∈ p, isValidAsciiChar c = true) :
    asciiScan (g ++ (36 :: (p ++ [59]))) = ScanResult.extracted p g := by
  have hplt : ∀ c ∈ p, c < 128 := fun c hc => (validChar_facts c (hv c hc)).1
  have hp59 : ∀ c ∈ p, c ≠ 59 := fun c hc => (validChar_facts c (hv c hc)).2.2.1
  have hg36 : ∀ b ∈ g, b ≠ 36 := fun b hb => (noiseByte_facts b (hg b hb)).2.2.2
  have hmask : (g ++ (36 :: (p ++ [59]))).map (· % 128)
      = g.map (· % 128) ++ (36 :: (p ++ [59])) := by
    simp only [List.map_append, List.map_cons, List.map_nil, mapMod_eq_self p hplt]
  have hgm36 : ∀ x ∈ g.map (· % 128), x ≠ 36 := by
    intro x hx
    rcases List.mem_map.mp hx with ⟨y, hy, rfl⟩
    exact (noiseByte_facts y (hg y hy)).1
  have hlengm : (g.map (· % 128)).length = g.length := List.length_map g _
  have hdropgm : (g.map (· % 128) ++ (36 :: (p ++ [59]))).drop g.length
      = 36 :: (p ++ [59]) := by
    rw [← hlengm]
    exact List.drop_left _ _
  have hidx1 : idxOfFrom ((g ++ (36 :: (p ++ [59]))).map (· % 128)) 36 0 = some g.length := by
    rw [hmask]
    unfold idxOfFrom
    rw [List.drop_zero, idxOfAux_append_found (g.map (· % 128)) (p ++ [59]) 36 hgm36]
    simp [hlengm]
  have hidx2 : idxOfFrom ((g ++ (36 :: (p ++ [59]))).map (· % 128)) 59 g.length
      = some (p.length + 1 + g.length) := by
    rw [hmask]
    unfold idxOfFrom
    rw [hdropgm, idxOfAux_cons, if_neg (by norm_num),
      idxOfAux_append_found p [] 59 hp59]
    rfl
  have ham : (((g ++ (36 :: (p ++ [59]))).map (· % 128)).drop g.length).take
      (p.length + 1 + g.length + 1 - g.length) = 36 :: (p ++ [59]) := by
    rw [hmask, hdropgm]
    apply List.take_of_length_le
    simp only [List.length_cons, List.length_append, List.length_nil]
    omega
  have hlast : (36 :: (p ++ [59])).getLast? = some 59 := by
    rw [show (36 : Nat) :: (p ++ [59]) = (36 :: p) ++ [59] by rw [List.cons_append]]
    exact List.getLast?_concat _
  have hpay : ((36 :: (p ++ [59])).drop 1).dropLast = p := by
    have h1 : (36 :: (p ++ [59])).drop 1 = p ++ [59] := rfl
    rw [h1]
    exact List.dropLast_concat
  have hproc : processAsciiMessage (36 :: (p ++ [59])) = some p := by
    unfold processAsciiMessage
    rw [if_neg (by simp), if_pos ⟨rfl, hlast⟩,
      if_neg (by simp only [List.length_cons, List.length_append, List.length_nil]; omega)]
    show (if (((36 :: (p ++ [59])).drop 1).dropLast).all isValidAsciiChar = true
        then some (((36 :: (p ++ [59])).drop 1).dropLast) else none) = some p
    rw [hpay, if_pos (List.all_eq_true.mpr hv)]
  have hsub : subIndexOf (g ++ (36 :: (p ++ [59]))) (36 :: (p ++ [59])) = some g.length :=
    subIndexOf_eq_length g 36 (p ++ [59]) hg36
  have hnew : (g ++ (36 :: (p ++ [59]))).take g.length ++
      (g ++ (36 :: (p ++ [59]))).drop (g.length + (36 :: (p ++ [59])).length) = g := by
    have h1 : (g ++ (36 :: (p ++ [59]))).take g.length = g := List.take_left _ _
    have h2 : (g ++ (36 :: (p ++ [59]))).drop (g.length + (36 :: (p ++ [59])).length)
        = [] := by
      rw [← List.length_append g (36 :: (p ++ [59]))]
      exact List.drop_length _
    rw [h1, h2, List.append_nil]
  simp only [asciiScan, hidx1, hidx2]
  rw [if_pos (show g.length < p.length + 1 + g.length by omega)]
  simp only [ham, hproc, hsub]
  rw [hnew]

theorem parseMessages_garbage_text (g p : List Nat) (n : Nat)
    (hg : ∀ b ∈ g, isNoiseByte b = true)
    (h5 : 5 ≤ p.length)
    (hv : ∀ c ∈ p, isValidAsciiChar c = true) :
    MessageParser.parseMessages ⟨g ++ (36 :: (p ++ [59])), n⟩ =
      ([Message.ascii p], 0, ⟨[], n + 1⟩) := by
  have hscan := asciiScan_garbage_text g p hg h5 hv
  have hne : (g ++ (36 :: (p ++ [59]))).isEmpty = false := by
    cases g <;> simp
  have hhead : ¬ (6 ≤ (g ++ (36 :: (p ++ [59]))).length ∧
      ((g ++ (36 :: (p ++ [59]))).head? = some 0xAA ∨
        (g ++ (36 :: (p ++ [59]))).head? = some 0xBB)) := by
    rintro ⟨-, hh⟩
    have hex : ∃ x, (g ++ (36 :: (p ++ [59]))).head? = some x ∧ (x = 0xAA ∨ x = 0xBB) := by
      rcases hh with h | h
      · exact ⟨0xAA, h, Or.inl rfl⟩
      · exact ⟨0xBB, h, Or.inr rfl⟩
    obtain ⟨x, hx, hor⟩ := hex
    cases g with
    | nil =>
      rw [List.nil_append, List.head?_cons] at hx
      have h36 : (36 : Nat) = x := Option.some_inj.mp hx
      rcases hor with h | h <;> omega
    | cons b t =>
      rw [List.cons_append, List.head?_cons] at hx
      have hb : b = x := Option.some_inj.mp hx
      obtain ⟨-, hA, hB, -⟩ := noiseByte_facts b (hg b (by simp))
      rcases hor with h | h <;> omega
  have hloop : parseLoop ((g ++ (36 :: (p ++ [59]))).length + 1)
      (g ++ (36 :: (p ++ [59]))) [] 0 = ([Message.ascii p], 0, []) := by
    unfold parseLoop
    simp only [hne, Bool.false_eq_true, if_false]
    rw [if_neg hhead]
    simp only [hscan]
    rw [parseLoop_noise g hg _ _ _
      (by simp only [List.length_append, List.length_cons]; omega)]
    rfl
  have heq : MessageParser.parseMessages ⟨g ++ (36 :: (p ++ [59])), n⟩
      = ((parseLoop ((g ++ (36 :: (p ++ [59]))).length + 1) (g ++ (36 :: (p ++ [59]))) [] 0).1,
         (parseLoop ((g ++ (36 :: (p ++ [59]))).length + 1) (g ++ (36 :: (p ++ [59]))) [] 0).2.1,
         ⟨(parseLoop ((g ++ (36 :: (p ++ [59]))).length + 1) (g ++ (36 :: (p ++ [59]))) [] 0).2.2,
          n + (parseLoop ((g ++ (36 :: (p ++ [59]))).length + 1)
                (g ++ (36 :: (p ++ [59]))) [] 0).1.length⟩) := rfl
  rw [heq, hloop]
  rfl

theorem asciiScan_short_tag (buf : List Nat)
    (hlen : buf.length < 7)
    (hhead : buf.head? = some 0xAA ∨ buf.head? = some 0xBB) :
    asciiScan buf = ScanResult.warnBreak ∨ asciiScan buf = ScanResult.wait := by
  rcases h1 : idxOfFrom (buf.map (· % 128)) 36 0 with _ | s
  · right
    simp only [asciiScan, h1]
    rw [if_pos hhead]
  · rcases h2 : idxOfFrom (buf.map (· % 128)) 59 s with _ | e
    · right
      simp only [asciiScan, h1, h2]
    · by_cases hse : s < e
      · left
        have hshort : (((buf.map (· % 128)).drop s).take (e + 1 - s)).length < 7 := by
          have h3 := List.length_take (e + 1 - s) ((buf.map (· % 128)).drop s)
          have h4 := List.length_drop s (buf.map (· % 128))
          have hml : (buf.map (· % 128)).length = buf.length := List.length_map _ _
          omega
        simp only [asciiScan, h1, h2]
        rw [if_pos hse]
        simp only [processAsciiMessage_none_short _ hshort]
      · right
        simp only [asciiScan, h1, h2]
        rw [if_neg hse]

theorem parseMessages_pending_header (buf : List Nat) (n : Nat)
    (hhead : buf.head? = some 0xAA ∨ buf.head? = some 0xBB)
    (hlen : buf.length < 6) :
    (MessageParser.parseMessages ⟨buf, n⟩).1 = [] ∧
    ((MessageParser.parseMessages ⟨buf, n⟩).2.2).buffer = buf := by
  have hne : buf.isEmpty = false := by
    cases buf with
    | nil => simp at hhead
    | cons b t => simp
  have hbin : ¬ (6 ≤ buf.length ∧ (buf.head? = some 0xAA ∨ buf.head? = some 0xBB)) := by
    rintro ⟨h6, -⟩
    omega
  have hloop : ∃ w, parseLoop (buf.length + 1) buf [] 0 = ([], w, buf) := by
    rcases asciiScan_short_tag buf (by omega) hhead with hs | hs
    · refine ⟨1, ?_⟩
      unfold parseLoop
      simp only [hne, Bool.false_eq_true, if_false]
      rw [if_neg hbin]
      simp only [hs]
      rfl
    · refine ⟨0, ?_⟩
      unfold parseLoop
      simp only [hne, Bool.false_eq_true, if_false]
      rw [if_neg hbin]
      simp only [hs]
      rfl
  obtain ⟨w, hw⟩ := hloop
  have heq : MessageParser.parseMessages ⟨buf, n⟩
      = ((parseLoop (buf.length + 1) buf [] 0).1,
         (parseLoop (buf.length + 1) buf [] 0).2.1,
         ⟨(parseLoop (buf.length + 1) buf [] 0).2.2,
          n + (parseLoop (buf.length + 1) buf [] 0).1.length⟩) := rfl
  rw [heq, hw]
  exact ⟨rfl, rfl⟩

/-- Invariant of the collection lifecycle: either the controller is still
collecting, has written no `STATUS`, and the count is below the threshold, or
it has stopped, has written `STATUS` exactly once, and the count reached the
threshold. -/
def ClientInv (target : Nat) (s : ClientState) : Prop :=
  (s.collecting = true ∧ s.statusWrites = 0 ∧ s.totalMessages < target) ∨
  (s.collecting = false ∧ s.statusWrites = 1 ∧ target ≤ s.totalMessages)

theorem clientInv_step (target : Nat) (s : ClientState) (d : List Nat)
    (h : ClientInv target s) : ClientInv target (handleTcpData target s d) := by
  unfold handleTcpData
  split_ifs with hcond
  · rcases h with ⟨hc, hw, ht⟩ | ⟨hc, hw, ht⟩
    · right
      refine ⟨rfl, ?_, hcond.2⟩
      show s.statusWrites + 1 = 1
      rw [hw]
    · have hct := hcond.1
      rw [hc] at hct
      exact absurd hct (by simp)
  · rcases h with ⟨hc, hw, ht⟩ | ⟨hc, hw, ht⟩
    · left
      refine ⟨hc, hw, ?_⟩
      by_contra hge
      push_neg at hge
      exact hcond ⟨hc, hge⟩
    · right
      exact ⟨hc, hw, Nat.le_trans ht (Nat.le_add_right _ _)⟩

theorem clientInv_run (target : Nat) (chunks : List (List Nat)) :
    ∀ s : ClientState, ClientInv target s → ClientInv target (runClient target s chunks) := by
  induction chunks with
  | nil => exact fun s h => h
  | cons c cs ih =>
    exact fun s h => ih (handleTcpData target s c) (clientInv_step target s c h)

theorem binary_decoders_agree_of_same_size (b : List Nat)
    (htag : b.head? = some 0xAA)
    (hsize : readUIntBE b 1 5 = readSizeLE b) :
    parseBinary b = (processBinaryMessage b).map BinMsg.payload := by
  rcases b with _ | ⟨h0, t⟩
  · simp at htag
  · have h0eq : h0 = 0xAA := by simpa using htag
    subst h0eq
    show (if (0xAA :: t : List Nat).getD 0 0 = 0xAA ∧ 6 ≤ (0xAA :: t : List Nat).length
          then (if 6 + readUIntBE (0xAA :: t) 1 5 ≤ (0xAA :: t : List Nat).length
                then some (((0xAA :: t).drop 6).take (readUIntBE (0xAA :: t) 1 5)) else none)
          else none)
        = Option.map BinMsg.payload
          (if (0xAA :: t : List Nat).length < 6 then none
           else if (0xAA : Nat) ≠ 0xAA ∧ (0xAA : Nat) ≠ 0xBB then none
           else if (0xAA :: t : List Nat).length < 6 + readSizeLE (0xAA :: t) then none
           else some ⟨0xAA, readSizeLE (0xAA :: t),
                      ((0xAA :: t).drop 6).take (readSizeLE (0xAA :: t)),
                      6 + readSizeLE (0xAA :: t)⟩)
    rw [hsize]
    by_cases h6 : 6 ≤ (0xAA :: t : List Nat).length
    · rw [if_pos ⟨rfl, h6⟩, if_neg (by omega : ¬ (0xAA :: t : List Nat).length < 6),
        if_neg (by simp : ¬ ((0xAA : Nat) ≠ 0xAA ∧ (0xAA : Nat) ≠ 0xBB))]
      by_cases hc : 6 + readSizeLE (0xAA :: t) ≤ (0xAA :: t : List Nat).length
      · rw [if_pos hc, if_neg (by omega)]
        rfl
      · rw [if_neg hc, if_pos (by omega)]
        rfl
    · rw [if_neg (fun hconj => h6 hconj.2), if_pos (by omega)]
      rfl

/-!
Claim theorems.
-/

/-- C1: chunking invariance fails on the code.  Feeding the valid binary
record `BB 02 00 00 00 00 07 08` as a single chunk emits exactly that record,
but feeding the same stream split into the 6-byte header followed by the
2 payload bytes emits no record at all: on the first call `parseMessages`
treats the complete-header/incomplete-payload buffer as corrupt, drops the
tag byte and then discards the remaining header bytes as noise, so the
suffix can never complete the record.  The emitted sequence therefore
depends on chunk boundaries. -/
theorem chunking_invariance_fails :
    (MessageParser.empty.addData [0xBB, 2, 0, 0, 0, 0, 7, 8]).parseMessages
      = ([Message.binary 0xBB 2 [7, 8]], 0, ⟨[], 1⟩) ∧
    (MessageParser.empty.addData [0xBB, 2, 0, 0, 0, 0]).parseMessages
      = ([], 1, ⟨[], 0⟩) ∧
    (((MessageParser.empty.addData [0xBB, 2, 0, 0, 0, 0]).parseMessages.2.2).addData
        [7, 8]).parseMessages
      = ([], 0, ⟨[], 0⟩) := ⟨rfl, rfl, rfl⟩

/-- C2: partial-arrival safety fails for binary records.  The valid record
`AA 01 00 00 00 00 05` split after its 6-byte header: feeding the prefix
emits no record but empties the buffer (all 6 record bytes are discarded),
and feeding the suffix afterwards emits nothing, whereas the unsplit record
yields one binary record.  Text records and splits inside the binary header
are safe, but this split position refutes the claim. -/
theorem partial_arrival_binary_lost :
    (MessageParser.empty.addData [0xAA, 1, 0, 0, 0, 0, 5]).parseMessages
      = ([Message.binary 0xAA 1 [5]], 0, ⟨[], 1⟩) ∧
    (MessageParser.empty.addData [0xAA, 1, 0, 0, 0, 0]).parseMessages
      = ([], 1, ⟨[], 0⟩) ∧
    (((MessageParser.empty.addData [0xAA, 1, 0, 0, 0, 0]).parseMessages.2.2).addData
        [5]).parseMessages
      = ([], 0, ⟨[], 0⟩) := ⟨rfl, rfl, rfl⟩

/-- C3 counterexample: after `addData` of a binary header declaring 2 payload
bytes together with the first payload byte `9`, the accumulator's unconsumed
buffer holds the partial payload byte itself — the state is not a running
byte count, refuting the streaming invariant. -/
theorem streaming_invariant_counterexample :
    ((MessageParser.empty.addData [0xAA, 2, 0, 0, 0, 0, 9]).buffer
      = [0xAA, 2, 0, 0, 0, 0, 9]) ∧
    (9 ∈ (MessageParser.empty.addData [0xAA, 2, 0, 0, 0, 0, 9]).buffer) :=
  ⟨rfl, by decide⟩

/-- C3 amended: `MessageParser` is an accumulate-then-parse design, not a
streaming one.  `addData` appends every chunk — including partial binary
payload bytes — to the in-memory buffer, and no running byte count of an
in-progress payload exists; moreover `parseMessages` on a
complete-header/incomplete-payload buffer discards those bytes entirely
instead of tracking progress. -/
theorem addData_accumulates (p : MessageParser) (d : List Nat) :
    ((p.addData d).buffer = p.buffer ++ d) ∧
    ((MessageParser.empty.addData [0xAA, 2, 0, 0, 0, 0, 9]).parseMessages.2.2
      = ⟨[], 0⟩) := ⟨rfl, rfl⟩

/-- C4: text framing round-trip.  For every payload `p` of length at least 5
whose bytes are printable ASCII excluding `$` and `;`, feeding the encoding
`$ p ;` to a fresh parser yields exactly one text record with payload `p`,
no warnings, and an empty residue. -/
theorem text_framing_roundtrip (p : List Nat) (h5 : 5 ≤ p.length)
    (hv : ∀ c ∈ p, isValidAsciiChar c = true) :
    (MessageParser.empty.addData (36 :: (p ++ [59]))).parseMessages
      = ([Message.ascii p], 0, ⟨[], 1⟩) := by
  have h := parseMessages_garbage_text [] p 0 (by simp) h5 hv
  exact h

/-- C4 witness: the encoding of the payload `hello`. -/
theorem text_framing_roundtrip_witness :
    (MessageParser.empty.addData (36 :: ([104, 101, 108, 108, 111] ++ [59]))).parseMessages
      = ([Message.ascii [104, 101, 108, 108, 111]], 0, ⟨[], 1⟩) :=
  text_framing_roundtrip [104, 101, 108, 108, 111] (by decide) (by decide)

/-- C5: evaluation at the failing input.  Feeding `$abcd;` produces one
parse warning and zero records, but the parser does not resume after the
`;`: the malformed record stays at the head of the buffer, and a valid
`$hello;` fed afterwards is never extracted — the malformed record stalls
the stream permanently, contradicting the claimed resynchronization. -/
theorem short_payload_stalls :
    (MessageParser.empty.addData [36, 97, 98, 99, 100, 59]).parseMessages
      = ([], 1, ⟨[36, 97, 98, 99, 100, 59], 0⟩) ∧
    (((MessageParser.empty.addData [36, 97, 98, 99, 100, 59]).parseMessages.2.2).addData
        [36, 104, 101, 108, 108, 111, 59]).parseMessages
      = ([], 1, ⟨[36, 97, 98, 99, 100, 59, 36, 104, 101, 108, 108, 111, 59], 0⟩) :=
  ⟨rfl, rfl⟩

/-- C6 counterexample: the garbage bytes `[1, 2]` followed by the valid record
`$hello;` yield exactly one record and an empty residue, but the number of
reported framing errors (`console.warn` calls) is 0, not 1 — the noise-skip
path of `parseMessages` drops garbage bytes silently. -/
theorem noise_resync_counterexample :
    ((MessageParser.empty.addData
        ([1, 2] ++ (36 :: ([104, 101, 108, 108, 111] ++ [59])))).parseMessages
      = ([Message.ascii [104, 101, 108, 108, 111]], 0, ⟨[], 1⟩)) ∧
    (MessageParser.empty.addData
        ([1, 2] ++ (36 :: ([104, 101, 108, 108, 111] ++ [59])))).parseMessages.2.1
      ≠ 1 := ⟨rfl, by decide⟩

/-- C6 amended: a stream of garbage bytes (bytes that are not binary tags and
do not read as `$` under the parser's 7-bit ASCII decoding) followed by one
valid text record yields exactly one emitted record and an empty residue,
but zero framing-error reports: the garbage is dropped silently. -/
theorem noise_then_record_silent (g p : List Nat) (_hne : g ≠ [])
    (hg : ∀ b ∈ g, isNoiseByte b = true)
    (h5 : 5 ≤ p.length)
    (hv : ∀ c ∈ p, isValidAsciiChar c = true) :
    (MessageParser.empty.addData (g ++ (36 :: (p ++ [59])))).parseMessages
      = ([Message.ascii p], 0, ⟨[], 1⟩) := by
  have h := parseMessages_garbage_text g p 0 hg h5 hv
  exact h

/-- C6 amended witness: garbage `[7, 200]` then `$hello;`. -/
theorem noise_then_record_silent_witness :
    (MessageParser.empty.addData
        ([7, 200] ++ (36 :: ([104, 101, 108, 108, 111] ++ [59])))).parseMessages
      = ([Message.ascii [104, 101, 108, 108, 111]], 0, ⟨[], 1⟩) :=
  noise_then_record_silent [7, 200] [104, 101, 108, 108, 111] (by decide) (by decide)
    (by decide) (by decide)

/-- C7: a residue that begins with a recognized tag byte (`0xAA` or `0xBB`)
but holds fewer than the 6 header bytes is pending, not noise:
`parseMessages` emits no record and leaves the residue unchanged. -/
theorem truncated_header_pending (buf : List Nat) (n : Nat)
    (hhead : buf.head? = some 0xAA ∨ buf.head? = some 0xBB)
    (hlen : buf.length < 6) :
    (MessageParser.parseMessages ⟨buf, n⟩).1 = [] ∧
    ((MessageParser.parseMessages ⟨buf, n⟩).2.2).buffer = buf :=
  parseMessages_pending_header buf n hhead hlen

/-- C7 witness: the 2-byte residue `AA 05`. -/
theorem truncated_header_pending_witness :
    (MessageParser.parseMessages ⟨[0xAA, 5], 0⟩).1 = [] ∧
    ((MessageParser.parseMessages ⟨[0xAA, 5], 0⟩).2.2).buffer = [0xAA, 5] :=
  truncated_header_pending [0xAA, 5] 0 (Or.inl rfl) (by decide)

/-- C8: along every run of `handleTcpData` events from the start state, the
`STATUS` command is written at most once, and once the cumulative record
count reaches the positive threshold it has been written exactly once —
never a second time, however many further records arrive. -/
theorem status_written_once (target : Nat) (htarget : 0 < target)
    (chunks : List (List Nat)) :
    (runClient target startState chunks).statusWrites ≤ 1 ∧
    (target ≤ (runClient target startState chunks).totalMessages →
      (runClient target startState chunks).statusWrites = 1) := by
  have hinv := clientInv_run target chunks startState (Or.inl ⟨rfl, rfl, htarget⟩)
  rcases hinv with ⟨-, hw, ht⟩ | ⟨-, hw, ht⟩
  · exact ⟨by omega, fun hle => absurd hle (by omega)⟩
  · exact ⟨by omega, fun _ => hw⟩

/-- C8 witness: threshold 1 reached by one `$hello;` record in one chunk. -/
theorem status_written_once_witness :
    (runClient 1 startState [[36, 104, 101, 108, 108, 111, 59]]).statusWrites ≤ 1 ∧
    (1 ≤ (runClient 1 startState [[36, 104, 101, 108, 108, 111, 59]]).totalMessages →
      (runClient 1 startState [[36, 104, 101, 108, 108, 111, 59]]).statusWrites = 1) :=
  status_written_once 1 (by decide) [[36, 104, 101, 108, 108, 111, 59]]

/-- C9: drain before close.  A step of the socket event loop never ends the
connection while unsent bytes remain: any step that newly sets `ended` leaves
an empty write buffer; a stop request with an empty write buffer ends the
connection immediately, while a stop request with queued bytes does not end
it and instead registers the drain handler that will. -/
theorem drain_before_close (s : TcpState) (e : TcpEvent) (h : s.ended = false) :
    ((tcpStep s e).ended = true → (tcpStep s e).writableLength = 0) ∧
    (s.writableLength = 0 → (tcpStep s TcpEvent.stopRequest).ended = true) ∧
    (0 < s.writableLength →
      (tcpStep s TcpEvent.stopRequest).ended = false ∧
      (tcpStep s TcpEvent.stopRequest).drainEndPending = true) := by
  refine ⟨?_, ?_, ?_⟩
  · cases e with
    | stopRequest =>
      show (stopTcpConnection s).ended = true → (stopTcpConnection s).writableLength = 0
      unfold stopTcpConnection
      split_ifs with hw
      · intro hend
        rw [h] at hend
        exact absurd hend (by simp)
      · intro _
        show s.writableLength = 0
        omega
    | drain =>
      show (if s.drainEndPending then (⟨0, false, true⟩ : TcpState)
            else ⟨0, s.drainEndPending, s.ended⟩).ended = true →
          (if s.drainEndPending then (⟨0, false, true⟩ : TcpState)
            else ⟨0, s.drainEndPending, s.ended⟩).writableLength = 0
      split_ifs with hp
      · intro _
        rfl
      · intro _
        rfl
    | enqueue n =>
      intro hend
      rw [show (tcpStep s (TcpEvent.enqueue n)).ended = s.ended from rfl, h] at hend
      exact absurd hend (by simp)
  · intro hw
    show (stopTcpConnection s).ended = true
    unfold stopTcpConnection
    rw [if_neg (by omega)]
  · intro hw
    show (stopTcpConnection s).ended = false ∧ (stopTcpConnection s).drainEndPending = true
    unfold stopTcpConnection
    rw [if_pos hw]
    exact ⟨h, rfl⟩

/-- C9 witness: an idle socket (empty write buffer, not ended) receiving the
stop request. -/
theorem drain_before_close_witness :
    ((tcpStep ⟨0, false, false⟩ TcpEvent.stopRequest).ended = true →
      (tcpStep ⟨0, false, false⟩ TcpEvent.stopRequest).writableLength = 0) ∧
    ((⟨0, false, false⟩ : TcpState).writableLength = 0 →
      (tcpStep ⟨0, false, false⟩ TcpEvent.stopRequest).ended = true) ∧
    (0 < (⟨0, false, false⟩ : TcpState).writableLength →
      (tcpStep ⟨0, false, false⟩ TcpEvent.stopRequest).ended = false ∧
      (tcpStep ⟨0, false, false⟩ TcpEvent.stopRequest).drainEndPending = true) :=
  drain_before_close ⟨0, false, false⟩ TcpEvent.stopRequest rfl

/-- C10 counterexample: the two binary decoders disagree.  `parseBinary`
rejects the tag `0xBB` that `processBinaryMessage` accepts, and on
`AA 01 00 00 00 00 09` the length field decodes to 1 little-endian
(`processBinaryMessage`, which extracts payload `[9]`) but to 2^32 big-endian
(`parseBinary`, which reports the record incomplete). -/
theorem binary_decoders_disagree :
    (processBinaryMessage [0xBB, 0, 0, 0, 0, 0] = some ⟨0xBB, 0, [], 6⟩) ∧
    (parseBinary [0xBB, 0, 0, 0, 0, 0] = none) ∧
    (readSizeLE [0xAA, 1, 0, 0, 0, 0, 9] = 1) ∧
    (readUIntBE [0xAA, 1, 0, 0, 0, 0, 9] 1 5 = 4294967296) ∧
    (processBinaryMessage [0xAA, 1, 0, 0, 0, 0, 9] = some ⟨0xAA, 1, [9], 7⟩) ∧
    (parseBinary [0xAA, 1, 0, 0, 0, 0, 9] = none) :=
  ⟨rfl, rfl, rfl, rfl, rfl, rfl⟩

/-- C10 amended: `parseBinary` accepts only the tag `0xAA` and reads the
5-byte length big-endian, while `processBinaryMessage` accepts `0xAA` and
`0xBB` and reads it little-endian.  On buffers tagged `0xAA` whose length
field decodes equally under both byte orders, the two decoders agree:
`parseBinary` returns exactly the payload that `processBinaryMessage`
extracts, and both classify the same buffers as complete. -/
theorem binary_decoders_agree (b : List Nat)
    (htag : b.head? = some 0xAA)
    (hsize : readUIntBE b 1 5 = readSizeLE b) :
    parseBinary b = (processBinaryMessage b).map BinMsg.payload :=
  binary_decoders_agree_of_same_size b htag hsize

/-- C10 amended witness: a complete empty-payload record tagged `0xAA`. -/
theorem binary_decoders_agree_witness :
    parseBinary [0xAA, 0, 0, 0, 0, 0]
      = (processBinaryMessage [0xAA, 0, 0, 0, 0, 0]).map BinMsg.payload :=
  binary_decoders_agree [0xAA, 0, 0, 0, 0, 0] rfl (by decide)
